import Mathlib

/-!
Verification of the fountain setup scheduler core
(`fountain_setup_parser.py`): a shallow embedding of the scanner,
grouper, disambiguator and the two output formatters, together with
theorems checking the specification's claims against the code.

The input document is modelled, as in the spec's interface section, as
the sequence of lines obtained from splitting the file text on newline
characters.  Python strings are modelled as Lean `String`s, with the
handful of Python `str` methods used by the source re-implemented
explicitly on the underlying character lists (ASCII-faithful).
-/

namespace FountainSched

/-! ### Python string primitives used by the source -/

/-- The whitespace characters stripped by Python's `str.strip()` and
matched by the regex class `\s` (ASCII range). -/
def isSpaceChar (c : Char) : Bool :=
  c == ' ' || c == '\t' || c == '\n' || c == '\r' || c == '\x0b' || c == '\x0c'

/-- The regex character class `[A-Z]`. -/
def isUpperAZ (c : Char) : Bool :=
  decide ('A' ≤ c) && decide (c ≤ 'Z')

/-- The regex character class `\d` (ASCII digits). -/
def isDigitChar (c : Char) : Bool :=
  decide ('0' ≤ c) && decide (c ≤ '9')

/-- Python `str.upper()` on one character (ASCII case mapping). -/
def pyUpperChar (c : Char) : Char :=
  if 'a' ≤ c ∧ c ≤ 'z' then Char.ofNat (c.toNat - 32) else c

/-- Python `str.strip()` on a character list: drop whitespace at both ends. -/
def pyStripChars (l : List Char) : List Char :=
  ((l.dropWhile isSpaceChar).reverse.dropWhile isSpaceChar).reverse

/-- Python `str.strip()`. -/
def pyStrip (s : String) : String :=
  String.mk (pyStripChars s.data)

/-- Python `str.startswith(t)`. -/
def pyStartsWith (s t : String) : Bool :=
  t.data.isPrefixOf s.data

/-- Python `str.endswith(t)`. -/
def pyEndsWith (s t : String) : Bool :=
  t.data.isSuffixOf s.data

/-- Python `'\n'.join(lines)`. -/
def joinNL : List String → String
  | [] => ""
  | [x] => x
  | x :: y :: rest => x ++ "\n" ++ joinNL (y :: rest)

/-- Python `int(...)` on a nonempty decimal digit string. -/
def digitsToNat (l : List Char) : Nat :=
  l.foldl (fun acc c => acc * 10 + (c.toNat - 48)) 0

/-! ### The setup-marker regex `\[\[SETUP\s+([A-Z]):\s*(.+?)\]\]`, used
with `re.match` (anchored at the start of the line, trailing text
allowed).  The matcher below implements the backtracking semantics of
this concrete pattern on character lists. -/

/-- Match a literal prefix, returning the remainder. -/
def dropLiteral : List Char → List Char → Option (List Char)
  | [], s => some s
  | _ :: _, [] => none
  | p :: ps, c :: cs => if c = p then dropLiteral ps cs else none

/-- The lazy part `(…?)\]\]` after at least zero further characters:
returns the shortest prefix of the input that is followed by a literal
`]]`, together with the text after that `]]`. -/
def captureToClose : List Char → Option (List Char × List Char)
  | [] => none
  | [_] => none
  | c :: d :: rest =>
    if c = ']' ∧ d = ']' then some ([], rest)
    else (captureToClose (d :: rest)).map (fun p => (c :: p.1, p.2))

/-- The regex fragment `(.+?)\]\]`: at least one character, lazily
extended until the first following `]]`. -/
def lazyPlusCapture : List Char → Option (List Char × List Char)
  | [] => none
  | c :: rest => (captureToClose rest).map (fun p => (c :: p.1, p.2))

/-- The regex fragment `\s*(.+?)\]\]` with backtracking: the greedy
`\s*` first consumes as much whitespace as possible and gives back one
character at a time when the lazy group cannot complete. -/
def matchSpacesThenCapture : List Char → Option (List Char × List Char)
  | [] => none
  | c :: rest =>
    if isSpaceChar c then
      match matchSpacesThenCapture rest with
      | some p => some p
      | none => lazyPlusCapture (c :: rest)
    else lazyPlusCapture (c :: rest)

/-- `self.setup_pattern.match(line)`: on success returns the captured
setup letter (group 1) and the raw captured description (group 2). -/
def setupMatchL (l : List Char) : Option (Char × List Char) :=
  match dropLiteral "[[SETUP".data l with
  | none => none
  | some r =>
    if (r.takeWhile isSpaceChar).isEmpty then none
    else
      match r.dropWhile isSpaceChar with
      | c :: d :: rest =>
        if isUpperAZ c && (d == ':') then
          match matchSpacesThenCapture rest with
          | some p => some (c, p.1)
          | none => none
        else none
      | _ => none

/-- `self.scene_number_pattern.search(line)` for the pattern `#(\d+)#`:
the leftmost position holding `#`, a nonempty digit run, `#`. -/
def findSceneNumber : List Char → Option Nat
  | [] => none
  | c :: rest =>
    if c = '#' then
      let ds := rest.takeWhile isDigitChar
      let r2 := rest.dropWhile isDigitChar
      if !ds.isEmpty && (r2.head? == some '#') then some (digitsToNat ds)
      else findSceneNumber rest
    else findSceneNumber rest

/-! ### Data model -/

/-- `Setup`: a camera setup (letter plus description). -/
structure Setup where
  letter : Char
  description : String
deriving DecidableEq, Repr

/-- `SceneContent`: one stored content block.  `scene_number` and
`scene_heading` are `Option`s because the Python fields hold `None`
until the first scene heading is seen. -/
structure SceneContent where
  setup : Setup
  scene_number : Option Nat
  scene_heading : Option String
  content_lines : List String
deriving DecidableEq, Repr

/-! ### Scanner (`_is_scene_heading`, `_extract_scenes`) -/

/-- `FountainSetupParser._is_scene_heading`. -/
def isSceneHeading (line : String) : Bool :=
  let l := pyStripChars line.data
  if l.isEmpty then false
  else
    let u := l.map pyUpperChar
    if "INT.".data.isPrefixOf u || "EXT.".data.isPrefixOf u ||
        "INT ".data.isPrefixOf u || "EXT ".data.isPrefixOf u ||
        "I/E.".data.isPrefixOf u then true
    else ".".data.isPrefixOf l

/-- The mutable locals of `_extract_scenes`. -/
structure ScanState where
  current_scene_number : Option Nat
  current_scene_heading : Option String
  current_setup : Option Setup
  current_content : List String
  scenes : List SceneContent
deriving DecidableEq, Repr

def initState : ScanState :=
  { current_scene_number := none
    current_scene_heading := none
    current_setup := none
    current_content := []
    scenes := [] }

/-- The `if current_setup and current_content:` flush used at scene
headings, setup markers and end of input. -/
def flushState (s : ScanState) : ScanState :=
  match s.current_setup with
  | none => s
  | some st =>
    if s.current_content.isEmpty then s
    else
      { s with
        scenes := s.scenes ++
          [{ setup := st
             scene_number := s.current_scene_number
             scene_heading := s.current_scene_heading
             content_lines := s.current_content }]
        current_content := [] }

/-- One iteration of the `while i < len(lines)` loop of
`_extract_scenes`. -/
def scanLine (s : ScanState) (line : String) : ScanState :=
  if isSceneHeading line then
    let s2 := flushState s
    { s2 with
      current_setup := none
      current_scene_heading := some line
      current_scene_number :=
        some ((findSceneNumber line.data).getD
          (s2.current_scene_number.getD 0 + 1)) }
  else
    match setupMatchL line.data with
    | some p =>
      let s2 := flushState s
      { s2 with
        current_setup := some
          { letter := p.1, description := String.mk (pyStripChars p.2) } }
    | none =>
      if s.current_setup.isSome then
        { s with current_content := s.current_content ++ [line] }
      else s

/-- `_extract_scenes`, over the document given as its list of lines. -/
def extractScenes (lines : List String) : List SceneContent :=
  (flushState (lines.foldl scanLine initState)).scenes

/-- `_extract_scenes` on the raw file text (`content.split('\n')`). -/
def extractScenesText (content : String) : List SceneContent :=
  extractScenes (content.splitOn "\n")

/-- The number of lines of the document that match the setup-marker
pattern. -/
def numSetupMarkers (lines : List String) : Nat :=
  (lines.filter (fun l => (setupMatchL l.data).isSome)).length

/-! ### Grouper (`_group_by_setup`) -/

/-- The sort key `x.scene_number or 0` used by `_group_by_setup`. -/
def sceneKey (b : SceneContent) : Nat :=
  b.scene_number.getD 0

/-- The comparison underlying `sort(key=lambda x: x.scene_number or 0)`. -/
def sceneLE (a b : SceneContent) : Prop :=
  sceneKey a ≤ sceneKey b

instance : DecidableRel sceneLE :=
  fun a b => inferInstanceAs (Decidable (sceneKey a ≤ sceneKey b))

instance : IsTotal SceneContent sceneLE :=
  ⟨fun a b => Nat.le_total (sceneKey a) (sceneKey b)⟩

instance : IsTrans SceneContent sceneLE :=
  ⟨fun _ _ _ => Nat.le_trans⟩

/-- The group `setup_groups[c]` built by `_group_by_setup`: the blocks
with setup letter `c` in scan order, then sorted by scene number.
Python's `list.sort` is stable; `List.insertionSort` is extensionally
the same (unique) stable sort. -/
def groupOf (scenes : List SceneContent) (c : Char) : List SceneContent :=
  List.insertionSort sceneLE (scenes.filter (fun b => b.setup.letter == c))

/-- `sorted(setup_groups.keys())`: the distinct setup letters of the
blocks, in ascending order. -/
def groupLetters (scenes : List SceneContent) : List Char :=
  List.insertionSort (fun a b : Char => a ≤ b)
    ((scenes.map (fun b => b.setup.letter)).dedup)

/-- All groups' blocks concatenated in the schedule formatter's
iteration order: letters ascending, each group pre-sorted. -/
def scheduleOrder (scenes : List SceneContent) : List SceneContent :=
  ((groupLetters scenes).map (groupOf scenes)).flatten

/-! ### Disambiguator (`_get_scene_suffix`) -/

/-- The key `(scene.scene_number, scene.setup.letter)`. -/
abbrev SKey := Option Nat × Char

instance {ε α : Type} [DecidableEq ε] [DecidableEq α] :
    DecidableEq (Except ε α) := fun a b =>
  match a, b with
  | Except.ok x, Except.ok y =>
    if h : x = y then isTrue (by rw [h]) else isFalse (by simp [h])
  | Except.error x, Except.error y =>
    if h : x = y then isTrue (by rw [h]) else isFalse (by simp [h])
  | Except.ok _, Except.error _ => isFalse (by simp)
  | Except.error _, Except.ok _ => isFalse (by simp)

/-- The caller-owned `scene_setup_count` dictionary. -/
def Counts := SKey → Option Nat

def emptyCounts : Counts := fun _ => none

def updateCount (m : Counts) (k : SKey) (v : Nat) : Counts :=
  fun k2 => if k2 = k then some v else m k2

/-- Python `chr(ord('A') + x)`. -/
def charA (x : Nat) : Char := Char.ofNat (65 + x)

/-- The suffix computed by `_get_scene_suffix` from the incremented
count, including the `ValueError` overflow branch, whose payload is the
offending key (scene number, setup letter). -/
def suffixForCount (count : Nat) (k : SKey) : Except SKey String :=
  if count ≤ 26 then
    Except.ok (String.mk [charA (count - 1)])
  else if count ≤ 26 + 26 * 26 then
    Except.ok (String.mk
      [charA ((count - 26 - 1) / 26), charA ((count - 26 - 1) % 26)])
  else if count ≤ 26 + 26 * 26 + 26 * 26 * 26 then
    Except.ok (String.mk
      [charA ((count - (26 + 26 * 26) - 1) / (26 * 26)),
       charA (((count - (26 + 26 * 26) - 1) / 26) % 26),
       charA ((count - (26 + 26 * 26) - 1) % 26)])
  else
    Except.error k

/-- `_get_scene_suffix`: threads the counter map explicitly; a raised
`ValueError` becomes `Except.error` carrying the offending key. -/
def getSceneSuffix (m : Counts) (k : SKey) : Counts × Except SKey String :=
  match m k with
  | none => (updateCount m k 0, Except.ok "")
  | some c => (updateCount m k (c + 1), suffixForCount (c + 1) k)

/-- The counter map after `n` calls of `_get_scene_suffix` with the
fixed key `k`, starting from a fresh map. -/
def stateAfter (k : SKey) : Nat → Counts
  | 0 => emptyCounts
  | n + 1 => (getSceneSuffix (stateAfter k n) k).1

/-- The result of call number `n + 1` (0-indexed `n`) in that sequence. -/
def callResult (k : SKey) (n : Nat) : Except SKey String :=
  (getSceneSuffix (stateAfter k n) k).2

/-! ### Schedule formatter (`_format_output`) -/

/-- Python f-string interpolation of an `int`-or-`None` value. -/
def showOptNat : Option Nat → String
  | none => "None"
  | some n => toString n

/-- The marker token `#<sceneNumber><setupLetter><suffix>#`. -/
def markerText (sn : Option Nat) (letter : Char) (suffix : String) : String :=
  "#" ++ showOptNat sn ++ String.mk [letter] ++ suffix ++ "#"

/-- `f'Scene {n}' if scene.scene_number else 'Scene'` (both `None` and
`0` are falsy). -/
def sceneLabel : Option Nat → String
  | none => "Scene"
  | some n => if n = 0 then "Scene" else "Scene " ++ toString n

/-- One line of the content-filter loop of `_format_output`: keep a
line unless its stripped text ends with `TO:` or starts with `=`. -/
def filterContentLoop : List String → List String
  | [] => []
  | l :: rest =>
    if pyEndsWith (pyStrip l) "TO:" then filterContentLoop rest
    else if pyStartsWith (pyStrip l) "=" then filterContentLoop rest
    else l :: filterContentLoop rest

/-- The `while content_lines and not content_lines[0].strip()` loop. -/
def dropLeadingBlank : List String → List String
  | [] => []
  | l :: rest =>
    if (pyStripChars l.data).isEmpty then dropLeadingBlank rest
    else l :: rest

/-- The `while content_lines and not content_lines[-1].strip()` loop. -/
def dropTrailingBlank : List String → List String
  | [] => []
  | l :: rest =>
    match dropTrailingBlank rest with
    | [] => if (pyStripChars l.data).isEmpty then [] else [l]
    | r => l :: r

/-- The content lines the schedule formatter emits for one block. -/
def scheduleContentLines (ls : List String) : List String :=
  dropTrailingBlank (dropLeadingBlank (filterContentLoop ls))

/-- The content lines the screenplay formatter emits for one block
(no transition/synopsis filtering). -/
def screenplayContentLines (ls : List String) : List String :=
  dropTrailingBlank (dropLeadingBlank ls)

/-- The output lines `_format_output` appends for one block, given its
disambiguation suffix. -/
def scheduleBlockLines (sc : SceneContent) (suffix : String) : List String :=
  (".[ ] From " ++ sceneLabel sc.scene_number ++ " (SETUP " ++
      String.mk [sc.setup.letter] ++ ": " ++ sc.setup.description ++ ") " ++
      markerText sc.scene_number sc.setup.letter suffix) ::
    "" :: (scheduleContentLines sc.content_lines ++ [""])

/-- The inner `for scene in scenes` loop of `_format_output`,
threading the per-group counter map and aborting on overflow. -/
def formatScenesLoop (m : Counts) :
    List SceneContent → Except SKey (List String)
  | [] => Except.ok []
  | sc :: rest =>
    match getSceneSuffix m (sc.scene_number, sc.setup.letter) with
    | (m2, Except.ok suffix) =>
      match formatScenesLoop m2 rest with
      | Except.ok ls => Except.ok (scheduleBlockLines sc suffix ++ ls)
      | Except.error e => Except.error e
    | (_, Except.error e) => Except.error e

/-- The outer `for i, setup_letter in enumerate(sorted(...))` loop of
`_format_output`; the counter map is reset for each letter. -/
def formatLetters (scenes : List SceneContent) :
    Nat → List Char → Except SKey (List String)
  | _, [] => Except.ok []
  | i, c :: rest =>
    match formatScenesLoop emptyCounts (groupOf scenes c) with
    | Except.ok body =>
      match formatLetters scenes (i + 1) rest with
      | Except.ok tl =>
        Except.ok ((if 0 < i then ["---", ""] else []) ++
          ("# SETUP " ++ String.mk [c]) :: "" :: (body ++ tl))
      | Except.error e => Except.error e
    | Except.error e => Except.error e

/-- `_format_output` applied to the groups of the given blocks (the
`parse_file` pipeline after `_extract_scenes`). -/
def formatOutput (scenes : List SceneContent) : Except SKey String :=
  match formatLetters scenes 0 (groupLetters scenes) with
  | Except.ok ls => Except.ok (joinNL ls)
  | Except.error e => Except.error e

/-! ### Screenplay formatter (`_format_as_screenplay`) -/

/-- The output lines for one block of the screenplay formatter. -/
def screenplayBlockLines (sc : SceneContent) (pre suffix : String) :
    List String :=
  ("." ++ pre ++ "SETUP " ++ String.mk [sc.setup.letter] ++ ": " ++
      sc.setup.description ++ " " ++
      markerText sc.scene_number sc.setup.letter suffix) ::
    "" :: (screenplayContentLines sc.content_lines ++ [""])

/-- The `for scene in scenes` loop of `_format_as_screenplay`: one
counter map for the whole pass, and a running current scene number
controlling the `SCENE n - ` heading label. -/
def screenplayLoop (m : Counts) (cur : Option Nat) :
    List SceneContent → Except SKey (List String)
  | [] => Except.ok []
  | sc :: rest =>
    match getSceneSuffix m (sc.scene_number, sc.setup.letter) with
    | (m2, Except.ok suffix) =>
      let pre :=
        if sc.scene_number ≠ cur then
          "SCENE " ++ showOptNat sc.scene_number ++ " - "
        else ""
      match screenplayLoop m2 sc.scene_number rest with
      | Except.ok ls => Except.ok (screenplayBlockLines sc pre suffix ++ ls)
      | Except.error e => Except.error e
    | (_, Except.error e) => Except.error e

/-- `_format_as_screenplay`. -/
def formatAsScreenplay (scenes : List SceneContent) : Except SKey String :=
  match screenplayLoop emptyCounts none scenes with
  | Except.ok ls => Except.ok (joinNL ls)
  | Except.error e => Except.error e

/-! ### Specification-side definitions
These follow the spec's words (not the source) and exist to be compared
with the code-side definitions above. -/

/-- Modelled from the spec: the digit list (each in `0..25`, most
significant first) of position `n` of the base-26 bijective sequence;
`0` is the empty string, `1` is `A`, `26` is `Z`, `27` is `AA`, … -/
def bijDigits : Nat → List Nat
  | 0 => []
  | n + 1 => bijDigits (n / 26) ++ [n % 26]
decreasing_by exact Nat.lt_succ_of_le (Nat.div_le_self _ _)

/-- Modelled from the spec: position `n` of the base-26 bijective
sequence over the digits `A`–`Z`. -/
def bijBase26 (n : Nat) : List Char :=
  (bijDigits n).map charA

/-- Modelled from the spec (claim C9's shape): the line starts with the
literal `[[SETUP ` (one space), then one uppercase letter, `:`, a
description captured non-greedily up to the first `]]`, then `]]`
(trailing text permitted). -/
def specSetupShape (line : String) : Bool :=
  match dropLiteral "[[SETUP ".data line.data with
  | none => false
  | some r =>
    match r with
    | c :: d :: rest => isUpperAZ c && (d == ':') && (lazyPlusCapture rest).isSome
    | _ => false

/-- The amended, declarative shape of a setup-marker line: `[[SETUP`,
one or more whitespace characters, an uppercase letter, `:`, then at
least one character standing before a later `]]`. -/
def setupShapeDecl (l : List Char) : Prop :=
  ∃ ws c rest, l = "[[SETUP".data ++ ws ++ c :: ':' :: rest ∧
    ws ≠ [] ∧ (∀ x ∈ ws, isSpaceChar x = true) ∧ isUpperAZ c = true ∧
    ∃ pre post, rest = pre ++ ']' :: ']' :: post ∧ pre ≠ []

/-- A line whose stripped text is empty. -/
def isBlankLine (l : String) : Bool :=
  (pyStripChars l.data).isEmpty

/-- The spec's content filter for the schedule formatter: keep a line
unless its trimmed text ends with `TO:` or starts with `=`. -/
def keepContentLine (l : String) : Bool :=
  !(pyEndsWith (pyStrip l) "TO:") && !(pyStartsWith (pyStrip l) "=")

/-- The spec's blank-line trimming: drop leading and trailing blank
lines, preserving interior ones. -/
def trimBlanks (ls : List String) : List String :=
  ((ls.dropWhile isBlankLine).reverse.dropWhile isBlankLine).reverse

/-- The number of scene-heading lines of a document. -/
def headingCount (lines : List String) : Nat :=
  (lines.filter (fun l => isSceneHeading l)).length

/-! ## Disambiguator lemmas -/

theorem charA_inj :
    ∀ x : Nat, x < 26 → ∀ y : Nat, y < 26 → charA x = charA y → x = y := by
  decide

theorem bijDigits_bound :
    ∀ n : Nat, ∀ d ∈ bijDigits n, d < 26 := by
  intro n
  induction n using Nat.strong_induction_on with
  | _ n ih =>
    match n with
    | 0 => intro d hd; simp [bijDigits] at hd
    | m + 1 =>
      intro d hd
      rw [bijDigits] at hd
      rcases List.mem_append.mp hd with h | h
      · exact ih (m / 26) (Nat.lt_succ_of_le (Nat.div_le_self _ _)) d h
      · have : d = m % 26 := by simpa using h
        omega

theorem bijDigits_eq_nil {n : Nat} : bijDigits n = [] ↔ n = 0 := by
  constructor
  · intro h
    match n with
    | 0 => rfl
    | m + 1 => rw [bijDigits] at h; simp at h
  · intro h; subst h; simp [bijDigits]

theorem bijDigits_inj : ∀ a b : Nat, bijDigits a = bijDigits b → a = b := by
  intro a
  induction a using Nat.strong_induction_on with
  | _ a ih =>
    intro b h
    match a, b with
    | 0, 0 => rfl
    | 0, p + 1 => rw [bijDigits, bijDigits] at h; simp at h
    | m + 1, 0 => rw [bijDigits, bijDigits] at h; simp at h
    | m + 1, p + 1 =>
      rw [bijDigits, bijDigits] at h
      have h2 := List.append_inj' h (by simp)
      have hdiv :=
        ih (m / 26) (Nat.lt_succ_of_le (Nat.div_le_self _ _)) (p / 26) h2.1
      have hmod : m % 26 = p % 26 := by simpa using h2.2
      omega

theorem bijDigits_small (n : Nat) (h1 : 1 ≤ n) (h2 : n ≤ 26) :
    bijDigits n = [n - 1] := by
  match n, h1 with
  | m + 1, _ =>
    rw [bijDigits]
    have hm : m < 26 := by omega
    rw [Nat.div_eq_of_lt hm, Nat.mod_eq_of_lt hm]
    simp [bijDigits]

theorem bijDigits_mid (n : Nat) (h1 : 27 ≤ n) (h2 : n ≤ 702) :
    bijDigits n = [(n - 1) / 26 - 1, (n - 1) % 26] := by
  match n with
  | m + 1 =>
    rw [bijDigits]
    rw [bijDigits_small (m / 26) (by omega) (by omega)]
    simp

theorem bijDigits_big (n : Nat) (h1 : 703 ≤ n) (h2 : n ≤ 18278) :
    bijDigits n =
      [((n - 1) / 26 - 1) / 26 - 1, ((n - 1) / 26 - 1) % 26, (n - 1) % 26] := by
  match n with
  | m + 1 =>
    rw [bijDigits]
    rw [bijDigits_mid (m / 26) (by omega) (by omega)]
    simp

theorem suffixForCount_eq_bij (c : Nat) (k : SKey)
    (h1 : 1 ≤ c) (h2 : c ≤ 18278) :
    suffixForCount c k = Except.ok (String.mk (bijBase26 c)) := by
  unfold suffixForCount bijBase26
  by_cases hA : c ≤ 26
  · rw [if_pos hA, bijDigits_small c h1 hA]
    simp
  · rw [if_neg hA]
    by_cases hB : c ≤ 26 + 26 * 26
    · rw [if_pos hB, bijDigits_mid c (by omega) (by omega)]
      have e1 : c - 26 - 1 = c - 1 - 26 * 1 := by omega
      have e2 : (c - 1 - 26 * 1) / 26 = (c - 1) / 26 - 1 :=
        Nat.sub_mul_div _ _ _ (by omega)
      have e3 : (c - 1 - 26 * 1) % 26 = (c - 1) % 26 :=
        Nat.sub_mul_mod (by omega)
      rw [e1, e2, e3]
      simp
    · rw [if_neg hB, if_pos (by omega), bijDigits_big c (by omega) h2]
      have q27 : 27 ≤ (c - 1) / 26 := by omega
      have e1 : c - (26 + 26 * 26) - 1 = c - 1 - 26 * 27 := by omega
      have e2 : (c - 1 - 26 * 27) / 26 = (c - 1) / 26 - 27 :=
        Nat.sub_mul_div _ _ _ (by omega)
      have e3 : (c - 1 - 26 * 27) % 26 = (c - 1) % 26 :=
        Nat.sub_mul_mod (by omega)
      have e4 : (c - 1) / 26 - 27 = (c - 1) / 26 - 1 - 26 * 1 := by omega
      have e5 : ((c - 1) / 26 - 1 - 26 * 1) / 26 = ((c - 1) / 26 - 1) / 26 - 1 :=
        Nat.sub_mul_div _ _ _ (by omega)
      have e6 : ((c - 1) / 26 - 1 - 26 * 1) % 26 = ((c - 1) / 26 - 1) % 26 :=
        Nat.sub_mul_mod (by omega)
      have e7 : (c - 1 - 26 * 27) / (26 * 26) = (c - 1 - 26 * 27) / 26 / 26 :=
        (Nat.div_div_eq_div_mul _ _ _).symm
      rw [e1, e7, e2, e4, e5, e6, e3]
      simp

theorem stateAfter_self (k : SKey) :
    ∀ n, stateAfter k n k = if n = 0 then none else some (n - 1) := by
  intro n
  induction n with
  | zero => rfl
  | succ m ih =>
    have hs : stateAfter k (m + 1) = (getSceneSuffix (stateAfter k m) k).1 := rfl
    rcases Nat.eq_zero_or_pos m with hm | hm
    · subst hm
      have h0 : stateAfter k 0 k = none := rfl
      rw [hs]
      unfold getSceneSuffix
      rw [h0]
      simp [updateCount]
    · have h1 : stateAfter k m k = some (m - 1) := by
        rw [ih, if_neg (by omega)]
      rw [hs]
      unfold getSceneSuffix
      rw [h1]
      show updateCount (stateAfter k m) k (m - 1 + 1) k = _
      unfold updateCount
      rw [if_pos rfl, if_neg (by omega)]
      congr 1
      omega

theorem callResult_zero (k : SKey) : callResult k 0 = Except.ok "" := rfl

theorem callResult_pos (k : SKey) (n : Nat) (h : 1 ≤ n) :
    callResult k n = suffixForCount n k := by
  unfold callResult getSceneSuffix
  rw [stateAfter_self k n, if_neg (by omega)]
  have e : n - 1 + 1 = n := by omega
  simp only [e]

theorem mapCharA_inj :
    ∀ l1 l2 : List Nat, (∀ d ∈ l1, d < 26) → (∀ d ∈ l2, d < 26) →
      l1.map charA = l2.map charA → l1 = l2
  | [], [], _, _, _ => rfl
  | [], _ :: _, _, _, h => by simp at h
  | _ :: _, [], _, _, h => by simp at h
  | a :: l1, b :: l2, hb1, hb2, h => by
    rw [List.map_cons, List.map_cons] at h
    have hh := List.cons_eq_cons.mp h
    have hab : a = b :=
      charA_inj a (hb1 a (List.mem_cons_self a l1)) b
        (hb2 b (List.mem_cons_self b l2)) hh.1
    have ht : l1 = l2 :=
      mapCharA_inj l1 l2 (fun d hd => hb1 d (List.mem_cons_of_mem _ hd))
        (fun d hd => hb2 d (List.mem_cons_of_mem _ hd)) hh.2
    rw [hab, ht]

/-- Claim C1: with a fresh counter map and a fixed key, the first call
of the disambiguator returns the empty string, call number `N ≥ 2`
(within the 3-letter capacity) returns position `N - 1` of the base-26
bijective sequence over `A`–`Z`, and the results of distinct calls are
pairwise distinct.  Call number `N` is `callResult k (N - 1)`. -/
theorem disambiguator_bijective_sequence (k : SKey) (n i j : Nat)
    (h1 : 1 ≤ n) (h2 : n ≤ 18278) (hij : i < j) (hj : j ≤ 18278) :
    callResult k 0 = Except.ok "" ∧
    callResult k n = Except.ok (String.mk (bijBase26 n)) ∧
    callResult k i ≠ callResult k j := by
  refine ⟨callResult_zero k, ?_, ?_⟩
  · rw [callResult_pos k n h1, suffixForCount_eq_bij n k h1 h2]
  · rcases Nat.eq_zero_or_pos i with hi | hi
    · subst hi
      rw [callResult_zero, callResult_pos k j (by omega),
        suffixForCount_eq_bij j k (by omega) hj]
      intro hcontra
      have hs : "" = String.mk (bijBase26 j) := by
        simpa using hcontra
      have hl : bijBase26 j = [] := by
        have := congrArg String.data hs
        simpa using this.symm
      have : bijDigits j = [] := by
        unfold bijBase26 at hl
        exact List.map_eq_nil_iff.mp hl
      have := bijDigits_eq_nil.mp this
      omega
    · rw [callResult_pos k i hi, callResult_pos k j (by omega),
        suffixForCount_eq_bij i k hi (by omega),
        suffixForCount_eq_bij j k (by omega) hj]
      intro hcontra
      have hs : String.mk (bijBase26 i) = String.mk (bijBase26 j) := by
        simpa using hcontra
      have hl : bijBase26 i = bijBase26 j := by
        have := congrArg String.data hs
        simpa using this
      have hd : bijDigits i = bijDigits j :=
        mapCharA_inj _ _ (bijDigits_bound i) (bijDigits_bound j) hl
      have := bijDigits_inj i j hd
      omega

theorem disambiguator_bijective_sequence_witness :
    callResult (some 3, 'A') 0 = Except.ok "" ∧
    callResult (some 3, 'A') 1 = Except.ok (String.mk (bijBase26 1)) ∧
    callResult (some 3, 'A') 0 ≠ callResult (some 3, 'A') 1 :=
  disambiguator_bijective_sequence (some 3, 'A') 1 0 1 (by decide) (by decide)
    (by decide) (by decide)

/-- Claim C2 counterexample: the 18279th occurrence of one key exceeds
18278 total occurrences, yet the disambiguator does not raise there —
it still returns the suffix `ZZZ` (the code's capacity is one
unsuffixed occurrence plus 18278 suffixed ones). -/
theorem disambiguator_capacity_counterexample :
    callResult (some 1, 'A') 18278 = Except.ok "ZZZ" := by
  rw [callResult_pos (some 1, 'A') 18278 (by omega)]
  decide

/-- Claim C2 amended: the disambiguator raises exactly when a single
key reaches its 18280th occurrence (one unsuffixed occurrence plus
18278 suffixed ones are supported, 18279 in total), and the raised
error carries the offending (scene number, setup letter) key. -/
theorem disambiguator_capacity_amended (k : SKey) (n : Nat) :
    callResult k n = Except.error k ↔ 18279 ≤ n := by
  constructor
  · intro h
    by_contra hlt
    have hn : n ≤ 18278 := by omega
    rcases Nat.eq_zero_or_pos n with h0 | h0
    · subst h0
      rw [callResult_zero] at h
      exact absurd h (by simp)
    · rw [callResult_pos k n h0] at h
      unfold suffixForCount at h
      rcases Nat.lt_or_ge n 27 with hc | hc
      · rw [if_pos (by omega)] at h
        exact absurd h (by simp)
      · rcases Nat.lt_or_ge n 703 with hc2 | hc2
        · rw [if_neg (by omega), if_pos (by omega)] at h
          exact absurd h (by simp)
        · rw [if_neg (by omega), if_neg (by omega), if_pos (by omega)] at h
          exact absurd h (by simp)
  · intro h
    rw [callResult_pos k n (by omega)]
    unfold suffixForCount
    rw [if_neg (by omega), if_neg (by omega), if_neg (by omega)]

/-! ## Scanner lemmas -/

theorem flushState_scenes_le (s : ScanState) :
    (flushState s).scenes.length ≤ s.scenes.length +
      (if s.current_setup.isSome then 1 else 0) := by
  rcases hs : s.current_setup with _ | st
  · simp [flushState, hs]
  · by_cases hc : s.current_content.isEmpty
    · simp [flushState, hs, hc]
    · simp [flushState, hs, hc]

theorem flushState_fields (s : ScanState) :
    (flushState s).current_setup = s.current_setup ∧
    (flushState s).current_scene_number = s.current_scene_number ∧
    (flushState s).current_scene_heading = s.current_scene_heading := by
  rcases hs : s.current_setup with _ | st
  · simp [flushState, hs]
  · by_cases hc : s.current_content.isEmpty <;> simp [flushState, hs, hc]

theorem flushState_blocks (s : ScanState)
    (hok : ∀ b ∈ s.scenes, b.content_lines ≠ []) :
    ∀ b ∈ (flushState s).scenes, b.content_lines ≠ [] := by
  intro b hb
  rcases hs : s.current_setup with _ | st
  · simp only [flushState, hs] at hb
    exact hok b hb
  · simp only [flushState, hs] at hb
    by_cases hc : s.current_content.isEmpty
    · rw [if_pos hc] at hb
      exact hok b hb
    · rw [if_neg hc] at hb
      simp only [List.mem_append, List.mem_singleton] at hb
      rcases hb with hb | hb
      · exact hok b hb
      · subst hb
        simpa using hc

theorem scanLine_step_bound (s : ScanState) (line : String) :
    (scanLine s line).scenes.length +
      (if (scanLine s line).current_setup.isSome then 1 else 0) ≤
    s.scenes.length + (if s.current_setup.isSome then 1 else 0) +
      (if (setupMatchL line.data).isSome then 1 else 0) := by
  have hf := flushState_scenes_le s
  unfold scanLine
  by_cases hh : isSceneHeading line
  · simp only [hh, if_true]
    simp only [Option.isSome_none, Bool.false_eq_true, if_false]
    omega
  · simp only [hh, Bool.false_eq_true, if_false]
    cases hm : setupMatchL line.data with
    | some p =>
      simp only [Option.isSome_some, if_true]
      omega
    | none =>
      by_cases hset : s.current_setup.isSome <;> simp [hset]

theorem scanLine_blocks (s : ScanState) (line : String)
    (hok : ∀ b ∈ s.scenes, b.content_lines ≠ []) :
    ∀ b ∈ (scanLine s line).scenes, b.content_lines ≠ [] := by
  intro b hb
  unfold scanLine at hb
  by_cases hh : isSceneHeading line
  · simp only [hh, if_true] at hb
    exact flushState_blocks s hok b hb
  · simp only [hh, Bool.false_eq_true, if_false] at hb
    cases hm : setupMatchL line.data with
    | some p =>
      rw [hm] at hb
      exact flushState_blocks s hok b hb
    | none =>
      rw [hm] at hb
      by_cases hset : s.current_setup.isSome
      · simp only [hset, if_true] at hb
        exact hok b hb
      · simp only [hset, Bool.false_eq_true, if_false] at hb
        exact hok b hb

theorem scan_fold_bound (lines : List String) :
    ∀ s : ScanState,
      (lines.foldl scanLine s).scenes.length +
        (if (lines.foldl scanLine s).current_setup.isSome then 1 else 0) ≤
      s.scenes.length + (if s.current_setup.isSome then 1 else 0) +
        numSetupMarkers lines := by
  induction lines with
  | nil =>
    intro s
    simp [numSetupMarkers]
  | cons l ls ih =>
    intro s
    have h1 := scanLine_step_bound s l
    have h2 := ih (scanLine s l)
    have h3 : numSetupMarkers (l :: ls) =
        (if (setupMatchL l.data).isSome then 1 else 0) + numSetupMarkers ls := by
      by_cases hm : (setupMatchL l.data).isSome
      · simp only [numSetupMarkers, List.filter_cons, hm, if_true,
          List.length_cons]
        omega
      · simp [numSetupMarkers, List.filter_cons, hm]
    simp only [List.foldl_cons]
    omega

theorem scan_fold_blocks (lines : List String) :
    ∀ s : ScanState, (∀ b ∈ s.scenes, b.content_lines ≠ []) →
      ∀ b ∈ (lines.foldl scanLine s).scenes, b.content_lines ≠ [] := by
  induction lines with
  | nil => intro s h; simpa using h
  | cons l ls ih =>
    intro s h
    simp only [List.foldl_cons]
    exact ih (scanLine s l) (scanLine_blocks s l h)

/-- Claim C3: the scanner emits at most as many blocks as there are
setup-marker lines, and every stored block has nonempty content (its
setup is non-null by construction: the `setup` field is total); in
particular a marker immediately followed by another marker or a
heading contributes no block. -/
theorem scanner_block_bound (lines : List String) (b : SceneContent)
    (hb : b ∈ extractScenes lines) :
    (extractScenes lines).length ≤ numSetupMarkers lines ∧
    b.content_lines ≠ [] := by
  have hfold := scan_fold_bound lines initState
  have e1 : initState.scenes.length = 0 := rfl
  have e2 : (if initState.current_setup.isSome then 1 else 0) = 0 := rfl
  constructor
  · have hfin := flushState_scenes_le (lines.foldl scanLine initState)
    unfold extractScenes
    omega
  · have hok := scan_fold_blocks lines initState (by simp [initState])
    unfold extractScenes at hb
    exact flushState_blocks _ hok b hb

theorem scanner_block_bound_witness :
    (extractScenes ["[[SETUP A: x]]", "hello"]).length ≤
      numSetupMarkers ["[[SETUP A: x]]", "hello"] ∧
    ({ setup := { letter := 'A', description := "x" }, scene_number := none,
       scene_heading := none,
       content_lines := ["hello"] } : SceneContent).content_lines ≠ [] :=
  scanner_block_bound ["[[SETUP A: x]]", "hello"] _ (by decide)

theorem scanLine_number_heading (s : ScanState) (l : String)
    (hl : isSceneHeading l = true) :
    (scanLine s l).current_scene_number =
      some ((findSceneNumber l.data).getD (s.current_scene_number.getD 0 + 1)) := by
  unfold scanLine
  simp only [hl, if_true]
  rw [(flushState_fields s).2.1]

theorem scanLine_number_other (s : ScanState) (l : String)
    (hl : isSceneHeading l = false) :
    (scanLine s l).current_scene_number = s.current_scene_number := by
  unfold scanLine
  simp only [hl, Bool.false_eq_true, if_false]
  cases hm : setupMatchL l.data with
  | some p => exact (flushState_fields s).2.1
  | none => by_cases hset : s.current_setup.isSome <;> simp [hset]

theorem scan_fold_number (lines : List String) :
    ∀ s : ScanState,
      (∀ x ∈ lines, isSceneHeading x = true → findSceneNumber x.data = none) →
      (lines.foldl scanLine s).current_scene_number =
        (if headingCount lines = 0 then s.current_scene_number
         else some (s.current_scene_number.getD 0 + headingCount lines)) := by
  induction lines with
  | nil => intro s _; simp [headingCount]
  | cons l ls ih =>
    intro s hno
    simp only [List.foldl_cons]
    rw [ih (scanLine s l) (fun x hx h => hno x (List.mem_cons_of_mem _ hx) h)]
    by_cases hl : isSceneHeading l = true
    · have hstep : (scanLine s l).current_scene_number =
          some (s.current_scene_number.getD 0 + 1) := by
        rw [scanLine_number_heading s l hl, hno l (List.mem_cons_self l ls) hl]
        rfl
      have hc : headingCount (l :: ls) = headingCount ls + 1 := by
        simp [headingCount, List.filter_cons, hl]
      by_cases h0 : headingCount ls = 0
      · rw [if_pos h0, hstep, hc, h0, if_neg (by omega)]
      · rw [if_neg h0, if_neg (by omega), hstep, hc]
        simp only [Option.getD_some]
        congr 1
        omega
    · have hl2 : isSceneHeading l = false := by
        simpa using hl
      have hc : headingCount (l :: ls) = headingCount ls := by
        simp [headingCount, List.filter_cons, hl2]
      rw [scanLine_number_other s l hl2, hc]

/-- Claim C4: a heading with an explicit `#N#` marker sets the current
scene number to `N`; one without a marker sets it to the previous
number plus one (the very first unnumbered heading gets 1, since the
running number starts empty and is read as 0); consequently in a
document whose heading lines carry no markers the Nth heading receives
scene number N, so after the whole document the current number equals
the number of headings. -/
theorem scene_numbering (lines : List String) (st : ScanState) (l : String)
    (hno : ∀ x ∈ lines, isSceneHeading x = true → findSceneNumber x.data = none)
    (hk : 1 ≤ headingCount lines)
    (hl : isSceneHeading l = true) :
    (lines.foldl scanLine initState).current_scene_number =
      some (headingCount lines) ∧
    (scanLine st l).current_scene_number =
      some ((findSceneNumber l.data).getD (st.current_scene_number.getD 0 + 1)) := by
  refine ⟨?_, scanLine_number_heading st l hl⟩
  rw [scan_fold_number lines initState hno, if_neg (by omega)]
  simp [initState]

theorem scene_numbering_witness :
    (["INT. ONE", "EXT. TWO"].foldl scanLine initState).current_scene_number =
      some (headingCount ["INT. ONE", "EXT. TWO"]) ∧
    (scanLine initState "INT. THREE #7#").current_scene_number =
      some ((findSceneNumber "INT. THREE #7#".data).getD
        (initState.current_scene_number.getD 0 + 1)) :=
  scene_numbering ["INT. ONE", "EXT. TWO"] initState "INT. THREE #7#"
    (by decide) (by decide) (by decide)

theorem flushState_numpos (s : ScanState)
    (hcur : 1 ≤ s.current_scene_number.getD 1)
    (hsc : ∀ b ∈ s.scenes, 1 ≤ b.scene_number.getD 1) :
    ∀ b ∈ (flushState s).scenes, 1 ≤ b.scene_number.getD 1 := by
  intro b hb
  rcases hs : s.current_setup with _ | st
  · simp only [flushState, hs] at hb
    exact hsc b hb
  · simp only [flushState, hs] at hb
    by_cases hc : s.current_content.isEmpty
    · rw [if_pos hc] at hb
      exact hsc b hb
    · rw [if_neg hc] at hb
      simp only [List.mem_append, List.mem_singleton] at hb
      rcases hb with hb | hb
      · exact hsc b hb
      · subst hb
        exact hcur

theorem scanLine_numpos (s : ScanState) (l : String)
    (hpos : isSceneHeading l = true →
      ∀ n, findSceneNumber l.data = some n → 1 ≤ n)
    (hcur : 1 ≤ s.current_scene_number.getD 1)
    (hsc : ∀ b ∈ s.scenes, 1 ≤ b.scene_number.getD 1) :
    1 ≤ (scanLine s l).current_scene_number.getD 1 ∧
    ∀ b ∈ (scanLine s l).scenes, 1 ≤ b.scene_number.getD 1 := by
  by_cases hl : isSceneHeading l = true
  · constructor
    · rw [scanLine_number_heading s l hl]
      cases hm : findSceneNumber l.data with
      | some n =>
        have := hpos hl n hm
        simpa using this
      | none => simp
    · intro b hb
      unfold scanLine at hb
      simp only [hl, if_true] at hb
      exact flushState_numpos s hcur hsc b hb
  · have hl2 : isSceneHeading l = false := by simpa using hl
    constructor
    · rw [scanLine_number_other s l hl2]
      exact hcur
    · intro b hb
      unfold scanLine at hb
      simp only [hl2, Bool.false_eq_true, if_false] at hb
      cases hm : setupMatchL l.data with
      | some p =>
        rw [hm] at hb
        exact flushState_numpos s hcur hsc b hb
      | none =>
        rw [hm] at hb
        by_cases hset : s.current_setup.isSome
        · simp only [hset, if_true] at hb
          exact hsc b hb
        · simp only [hset, Bool.false_eq_true, if_false] at hb
          exact hsc b hb

theorem scan_fold_numpos (lines : List String) :
    ∀ s : ScanState,
      (∀ x ∈ lines, isSceneHeading x = true →
        ∀ n, findSceneNumber x.data = some n → 1 ≤ n) →
      1 ≤ s.current_scene_number.getD 1 →
      (∀ b ∈ s.scenes, 1 ≤ b.scene_number.getD 1) →
      1 ≤ (lines.foldl scanLine s).current_scene_number.getD 1 ∧
      ∀ b ∈ (lines.foldl scanLine s).scenes, 1 ≤ b.scene_number.getD 1 := by
  induction lines with
  | nil => intro s _ hcur hsc; exact ⟨hcur, hsc⟩
  | cons l ls ih =>
    intro s hpos hcur hsc
    simp only [List.foldl_cons]
    have hstep := scanLine_numpos s l
      (hpos l (List.mem_cons_self l ls)) hcur hsc
    exact ih (scanLine s l)
      (fun x hx => hpos x (List.mem_cons_of_mem _ hx)) hstep.1 hstep.2

/-- Claim C6 counterexample: for the document whose lines are
`[[SETUP A: shot]]` and `hello` the scanner stores one block, and its
`scene_number` is `None` — not a positive integer. -/
theorem scene_number_none_counterexample :
    (extractScenes ["[[SETUP A: shot]]", "hello"]).map
      (fun b => b.scene_number) = [none] := by
  decide

/-- Claim C6 amended: provided every explicit `#N#` marker on a
scene-heading line carries a positive number, every stored block's
`scene_number` is either null (`getD 1` reads null as 1) or a positive
integer. -/
theorem scene_number_positive_amended (lines : List String) (b : SceneContent)
    (hpos : ∀ x ∈ lines, isSceneHeading x = true →
      ∀ n, findSceneNumber x.data = some n → 1 ≤ n)
    (hb : b ∈ extractScenes lines) :
    1 ≤ b.scene_number.getD 1 := by
  have h := scan_fold_numpos lines initState hpos (by simp [initState])
    (by simp [initState])
  unfold extractScenes at hb
  exact flushState_numpos _ h.1 h.2 b hb

theorem scene_number_positive_amended_witness :
    1 ≤ ({ setup := { letter := 'B', description := "x" },
           scene_number := some 1, scene_heading := some "INT. A",
           content_lines := ["line"] } : SceneContent).scene_number.getD 1 :=
  scene_number_positive_amended ["INT. A", "[[SETUP B: x]]", "line"] _
    (by decide) (by decide)

theorem flushState_content_empty (s : ScanState)
    (hinv : s.current_setup = none → s.current_content = []) :
    (flushState s).current_content = [] := by
  rcases hs : s.current_setup with _ | st
  · simp [flushState, hs, hinv hs]
  · by_cases hc : s.current_content.isEmpty
    · simp only [flushState, hs, hc, if_true]
      simpa using hc
    · simp [flushState, hs, hc]

/-- Claim C7: a scene-heading line always clears the active setup and
leaves the accumulation buffer empty (so a setup's scope never crosses
a scene boundary), and a content line arriving while no setup is
active leaves the scanner state unchanged — the line is dropped.  The
hypothesis `hinv` is the invariant, holding in every reachable state,
that the buffer is empty whenever no setup is active. -/
theorem heading_clears_setup (s s2 : ScanState) (line l2 : String)
    (hinv : s.current_setup = none → s.current_content = [])
    (hhead : isSceneHeading line = true)
    (hnh : isSceneHeading l2 = false)
    (hnm : setupMatchL l2.data = none)
    (hns : s2.current_setup = none) :
    (scanLine s line).current_setup = none ∧
    (scanLine s line).current_content = [] ∧
    scanLine s2 l2 = s2 := by
  refine ⟨?_, ?_, ?_⟩
  · unfold scanLine
    simp [hhead]
  · unfold scanLine
    simp only [hhead, if_true]
    exact flushState_content_empty s hinv
  · unfold scanLine
    simp [hnh, hnm, hns]

theorem heading_clears_setup_witness :
    (scanLine initState "INT. ROOM").current_setup = none ∧
    (scanLine initState "INT. ROOM").current_content = [] ∧
    scanLine initState "hello" = initState :=
  heading_clears_setup initState initState "INT. ROOM" "hello"
    (fun _ => rfl) (by decide) (by decide) (by decide) rfl

/-! ## Grouper lemmas -/

theorem orderedInsert_filter_pos (v : Nat) (x : SceneContent)
    (m : List SceneContent) (hx : sceneKey x = v) :
    (List.orderedInsert sceneLE x m).filter (fun b => sceneKey b == v) =
      x :: m.filter (fun b => sceneKey b == v) := by
  induction m with
  | nil => simp [List.orderedInsert, hx]
  | cons b m ih =>
    by_cases hle : sceneLE x b
    · rw [List.orderedInsert, if_pos hle]
      simp [List.filter_cons, hx]
    · rw [List.orderedInsert, if_neg hle]
      have hb : ¬((sceneKey b == v) = true) := by
        unfold sceneLE at hle
        simp only [beq_iff_eq]
        omega
      rw [List.filter_cons, if_neg hb, List.filter_cons, if_neg hb, ih]

theorem orderedInsert_filter_neg (v : Nat) (x : SceneContent)
    (m : List SceneContent) (hx : ¬ sceneKey x = v) :
    (List.orderedInsert sceneLE x m).filter (fun b => sceneKey b == v) =
      m.filter (fun b => sceneKey b == v) := by
  induction m with
  | nil => simp [List.orderedInsert, hx]
  | cons b m ih =>
    by_cases hle : sceneLE x b
    · rw [List.orderedInsert, if_pos hle]
      simp [List.filter_cons, hx]
    · rw [List.orderedInsert, if_neg hle]
      rw [List.filter_cons, List.filter_cons, ih]

theorem filter_insertionSort_key (v : Nat) (l : List SceneContent) :
    (List.insertionSort sceneLE l).filter (fun b => sceneKey b == v) =
      l.filter (fun b => sceneKey b == v) := by
  induction l with
  | nil => rfl
  | cons x l ih =>
    rw [List.insertionSort]
    by_cases hx : sceneKey x = v
    · rw [orderedInsert_filter_pos v x _ hx, ih, List.filter_cons,
        if_pos (by simp [hx])]
    · rw [orderedInsert_filter_neg v x _ hx, ih, List.filter_cons,
        if_neg (by simp [hx])]

theorem flatten_filter_perm :
    ∀ (ds : List Char) (xs : List SceneContent), ds.Nodup →
      (∀ b ∈ xs, b.setup.letter ∈ ds) →
      ((ds.map (fun c => xs.filter (fun b => b.setup.letter == c))).flatten).Perm
        xs := by
  intro ds
  induction ds with
  | nil =>
    intro xs _ hcov
    match xs with
    | [] => simp
    | b :: xs => exact absurd (hcov b (List.mem_cons_self b xs)) (by simp)
  | cons d ds ih =>
    intro xs hnd hcov
    have hnd2 : ds.Nodup := (List.nodup_cons.mp hnd).2
    have hdnot : d ∉ ds := (List.nodup_cons.mp hnd).1
    simp only [List.map_cons, List.flatten_cons]
    have hmap : ds.map (fun c => xs.filter (fun b => b.setup.letter == c)) =
        ds.map (fun c =>
          (xs.filter (fun b => !(b.setup.letter == d))).filter
            (fun b => b.setup.letter == c)) := by
      apply List.map_congr_left
      intro c hc
      rw [List.filter_filter]
      apply List.filter_congr
      intro b _
      by_cases hb : b.setup.letter = c
      · have hcd : ¬ c = d := fun h => hdnot (h ▸ hc)
        have hbd : ¬ b.setup.letter = d := fun h => hcd (h ▸ hb).symm
        simp [hb, hbd, hcd]
      · simp [hb]
    rw [hmap]
    have hcov2 : ∀ b ∈ xs.filter (fun b => !(b.setup.letter == d)),
        b.setup.letter ∈ ds := by
      intro b hb
      have hmem := List.mem_of_mem_filter hb
      have hprop := List.of_mem_filter hb
      simp only [Bool.not_eq_true', beq_eq_false_iff_ne, ne_eq] at hprop
      rcases List.mem_cons.mp (hcov b hmem) with h | h
      · exact absurd h hprop
      · exact h
    have hperm := ih (xs.filter (fun b => !(b.setup.letter == d))) hnd2 hcov2
    exact (List.Perm.append_left _ hperm).trans (List.filter_append_perm _ xs)

theorem flatten_map_sort_perm (scenes : List SceneContent) :
    ∀ ds : List Char,
      ((ds.map (groupOf scenes)).flatten).Perm
        ((ds.map (fun c =>
          scenes.filter (fun b => b.setup.letter == c))).flatten) := by
  intro ds
  induction ds with
  | nil => simp
  | cons d ds ih =>
    simp only [List.map_cons, List.flatten_cons]
    exact List.Perm.append (List.perm_insertionSort _ _) ih

theorem groupLetters_nodup (scenes : List SceneContent) :
    (groupLetters scenes).Nodup :=
  (List.perm_insertionSort _ _).symm.nodup (List.nodup_dedup _)

theorem groupLetters_cover (scenes : List SceneContent) :
    ∀ b ∈ scenes, b.setup.letter ∈ groupLetters scenes := by
  intro b hb
  unfold groupLetters
  rw [List.Perm.mem_iff (List.perm_insertionSort _ _), List.mem_dedup]
  exact List.mem_map.mpr ⟨b, hb, rfl⟩

/-- Claim C5: the grouper partitions the scanner's blocks: group `c`
holds, with multiplicity, exactly the blocks whose setup letter is `c`
(descriptions are not part of the key); each group is sorted by scene
number ascending with null read as 0; the sort is stable — the blocks
of any fixed scene number keep their scan order; and the schedule
iteration order (letters ascending, each group pre-sorted) is a
permutation of the scanner's output. -/
theorem grouper_partition (scenes : List SceneContent) (c : Char) (v : Nat) :
    (groupOf scenes c).Perm
      (scenes.filter (fun b => b.setup.letter == c)) ∧
    List.Sorted sceneLE (groupOf scenes c) ∧
    (groupOf scenes c).filter (fun b => sceneKey b == v) =
      (scenes.filter (fun b => b.setup.letter == c)).filter
        (fun b => sceneKey b == v) ∧
    (scheduleOrder scenes).Perm scenes := by
  refine ⟨List.perm_insertionSort _ _, List.sorted_insertionSort _ _,
    filter_insertionSort_key v _, ?_⟩
  unfold scheduleOrder
  exact (flatten_map_sort_perm scenes (groupLetters scenes)).trans
    (flatten_filter_perm (groupLetters scenes) scenes
      (groupLetters_nodup scenes) (groupLetters_cover scenes))

/-! ## Formatter content lemmas -/

theorem filterContentLoop_eq (ls : List String) :
    filterContentLoop ls = ls.filter keepContentLine := by
  induction ls with
  | nil => rfl
  | cons l ls ih =>
    rw [filterContentLoop]
    by_cases h1 : pyEndsWith (pyStrip l) "TO:" = true
    · simp [h1, ih, List.filter_cons, keepContentLine]
    · by_cases h2 : pyStartsWith (pyStrip l) "=" = true
      · simp [h1, h2, ih, List.filter_cons, keepContentLine]
      · simp [h1, h2, ih, List.filter_cons, keepContentLine]

theorem dropLeadingBlank_eq (ls : List String) :
    dropLeadingBlank ls = ls.dropWhile isBlankLine := by
  induction ls with
  | nil => rfl
  | cons l ls ih =>
    rw [dropLeadingBlank, List.dropWhile_cons]
    by_cases h : (pyStripChars l.data).isEmpty = true
    · simp only [h, if_true, ih]
      rw [if_pos (by simpa [isBlankLine] using h)]
    · simp only [h, Bool.false_eq_true, if_false]
      rw [if_neg (by simpa [isBlankLine] using h)]

theorem dropTrailingBlank_eq (ls : List String) :
    dropTrailingBlank ls = (ls.reverse.dropWhile isBlankLine).reverse := by
  induction ls with
  | nil => rfl
  | cons l ls ih =>
    rw [dropTrailingBlank]
    cases hr : dropTrailingBlank ls with
    | nil =>
      have hnil : ls.reverse.dropWhile isBlankLine = [] :=
        List.reverse_eq_nil_iff.mp (ih.symm.trans hr)
      rw [List.reverse_cons, List.dropWhile_append]
      simp only [hnil, List.isEmpty_nil, if_true]
      by_cases hl : (pyStripChars l.data).isEmpty = true
      · have hbl : isBlankLine l = true := by simpa [isBlankLine] using hl
        simp [hl, List.dropWhile_cons, hbl]
      · have hbl : isBlankLine l = false := by simpa [isBlankLine] using hl
        simp [hl, List.dropWhile_cons, hbl]
    | cons r rs =>
      have hne : ls.reverse.dropWhile isBlankLine = l :: ls |> fun _ => True :=
        trivial
      have hcons : (ls.reverse.dropWhile isBlankLine).reverse = r :: rs :=
        ih.symm.trans hr
      have hnonnil : ¬ (ls.reverse.dropWhile isBlankLine).isEmpty = true := by
        intro hempty
        rw [List.isEmpty_iff.mp hempty] at hcons
        simp at hcons
      rw [List.reverse_cons, List.dropWhile_append, if_neg hnonnil,
        List.reverse_append, hcons]
      simp

/-- Claim C8: for every block's content, the schedule formatter keeps
exactly the lines whose trimmed text neither ends with `TO:` nor
starts with `=` and then trims leading and trailing blank lines
(interior blanks preserved), while the screenplay formatter only trims
blank lines; in particular a `CUT TO:` line is dropped by the former
and kept by the latter. -/
theorem formatter_content_filters (ls : List String) :
    scheduleContentLines ls = trimBlanks (ls.filter keepContentLine) ∧
    screenplayContentLines ls = trimBlanks ls ∧
    scheduleContentLines ["CUT TO:"] = [] ∧
    screenplayContentLines ["CUT TO:"] = ["CUT TO:"] := by
  refine ⟨?_, ?_, by decide, by decide⟩
  · unfold scheduleContentLines trimBlanks
    rw [filterContentLoop_eq, dropLeadingBlank_eq, dropTrailingBlank_eq]
  · unfold screenplayContentLines trimBlanks
    rw [dropLeadingBlank_eq, dropTrailingBlank_eq]

/-! ## Setup-marker pattern lemmas -/

theorem dropLiteral_eq_some :
    ∀ (lit s r : List Char), dropLiteral lit s = some r ↔ s = lit ++ r := by
  intro lit
  induction lit with
  | nil =>
    intro s r
    rw [dropLiteral]
    simp
  | cons p ps ih =>
    intro s r
    cases s with
    | nil =>
      rw [dropLiteral]
      simp
    | cons c cs =>
      rw [dropLiteral]
      by_cases h : c = p
      · subst h
        simp [ih cs r]
      · simp only [if_neg h]
        constructor
        · intro hc
          simp at hc
        · intro hc
          rw [List.cons_append] at hc
          injection hc with h1 _
          exact absurd h1 h

theorem captureToClose_isSome :
    ∀ s : List Char, (captureToClose s).isSome = true ↔
      ∃ pre post, s = pre ++ ']' :: ']' :: post := by
  intro s
  induction s with
  | nil =>
    constructor
    · intro h
      rw [captureToClose] at h
      simp at h
    · rintro ⟨pre, post, h⟩
      have hlen := congrArg List.length h
      simp only [List.length_nil, List.length_append, List.length_cons] at hlen
      omega
  | cons c rest ih =>
    cases rest with
    | nil =>
      constructor
      · intro h
        rw [captureToClose] at h
        simp at h
      · rintro ⟨pre, post, h⟩
        have hlen := congrArg List.length h
        simp only [List.length_cons, List.length_nil, List.length_append] at hlen
        omega
    | cons d rest2 =>
      by_cases hcd : c = ']' ∧ d = ']'
      · constructor
        · intro _
          exact ⟨[], rest2, by rw [hcd.1, hcd.2]; rfl⟩
        · intro _
          rw [captureToClose, if_pos hcd]
          rfl
      · have hred : (captureToClose (c :: d :: rest2)).isSome =
            (captureToClose (d :: rest2)).isSome := by
          rw [captureToClose, if_neg hcd]
          cases captureToClose (d :: rest2) <;> rfl
        rw [hred, ih]
        constructor
        · rintro ⟨pre, post, h⟩
          exact ⟨c :: pre, post, by rw [List.cons_append, h]⟩
        · rintro ⟨pre, post, h⟩
          cases pre with
          | nil =>
            simp only [List.nil_append] at h
            injection h with h1 h2
            injection h2 with h2 _
            exact absurd ⟨h1, h2⟩ hcd
          | cons p pre2 =>
            simp only [List.cons_append] at h
            injection h with _ h2
            exact ⟨pre2, post, h2⟩

theorem lazyPlusCapture_isSome :
    ∀ s : List Char, (lazyPlusCapture s).isSome = true ↔
      ∃ pre post, s = pre ++ ']' :: ']' :: post ∧ pre ≠ [] := by
  intro s
  cases s with
  | nil =>
    constructor
    · intro h
      rw [lazyPlusCapture] at h
      simp at h
    · rintro ⟨pre, post, h, hne⟩
      have hlen := congrArg List.length h
      simp only [List.length_nil, List.length_append, List.length_cons] at hlen
      have : pre.length ≠ 0 := fun h0 => hne (List.length_eq_zero.mp h0)
      omega
  | cons c rest =>
    have hred : (lazyPlusCapture (c :: rest)).isSome =
        (captureToClose rest).isSome := by
      rw [lazyPlusCapture]
      cases captureToClose rest <;> rfl
    rw [hred, captureToClose_isSome]
    constructor
    · rintro ⟨pre, post, h⟩
      exact ⟨c :: pre, post, by rw [List.cons_append, h], by simp⟩
    · rintro ⟨pre, post, h, hne⟩
      cases pre with
      | nil => exact absurd rfl hne
      | cons p pre2 =>
        simp only [List.cons_append] at h
        injection h with _ h2
        exact ⟨pre2, post, h2⟩

theorem mSTC_isSome :
    ∀ s : List Char, (matchSpacesThenCapture s).isSome = true ↔
      ∃ pre post, s = pre ++ ']' :: ']' :: post ∧ pre ≠ [] := by
  intro s
  induction s with
  | nil =>
    rw [show matchSpacesThenCapture [] = none from rfl]
    constructor
    · intro h
      simp at h
    · rintro ⟨pre, post, h, hne⟩
      have hlen := congrArg List.length h
      simp only [List.length_nil, List.length_append, List.length_cons] at hlen
      have : pre.length ≠ 0 := fun h0 => hne (List.length_eq_zero.mp h0)
      omega
  | cons c rest ih =>
    by_cases hc : isSpaceChar c = true
    · have key : (matchSpacesThenCapture (c :: rest)).isSome = true ↔
          ((matchSpacesThenCapture rest).isSome = true ∨
            (lazyPlusCapture (c :: rest)).isSome = true) := by
        rw [matchSpacesThenCapture, if_pos hc]
        cases hm : matchSpacesThenCapture rest with
        | some p => simp
        | none => simp
      rw [key, ih, lazyPlusCapture_isSome]
      constructor
      · rintro (⟨pre, post, h, _⟩ | h2)
        · exact ⟨c :: pre, post, by rw [List.cons_append, h], by simp⟩
        · exact h2
      · intro h
        exact Or.inr h
    · have hred : matchSpacesThenCapture (c :: rest) =
          lazyPlusCapture (c :: rest) := by
        rw [matchSpacesThenCapture, if_neg hc]
      rw [hred, lazyPlusCapture_isSome]

theorem mem_takeWhile_pred (p : Char → Bool) :
    ∀ (l : List Char) (x : Char), x ∈ l.takeWhile p → p x = true := by
  intro l
  induction l with
  | nil => intro x hx; simp at hx
  | cons a l ih =>
    intro x hx
    rw [List.takeWhile_cons] at hx
    by_cases ha : p a = true
    · rw [if_pos ha] at hx
      rcases List.mem_cons.mp hx with h | h
      · subst h; exact ha
      · exact ih x h
    · rw [if_neg ha] at hx
      simp at hx

theorem takeWhile_spaces_append (p : Char → Bool) :
    ∀ (ws : List Char) (c : Char) (t : List Char),
      (∀ x ∈ ws, p x = true) → p c = false →
      (ws ++ c :: t).takeWhile p = ws ∧ (ws ++ c :: t).dropWhile p = c :: t := by
  intro ws
  induction ws with
  | nil =>
    intro c t _ hc
    simp [List.takeWhile_cons, List.dropWhile_cons, hc]
  | cons w ws ih =>
    intro c t hall hc
    have hw : p w = true := hall w (List.mem_cons_self w ws)
    have ihh := ih c t (fun x hx => hall x (List.mem_cons_of_mem _ hx)) hc
    simp only [List.cons_append, List.takeWhile_cons, List.dropWhile_cons, hw,
      if_true, ihh.1, ihh.2]
    exact ⟨trivial, trivial⟩

theorem isUpperAZ_not_space (c : Char) (h : isUpperAZ c = true) :
    isSpaceChar c = false := by
  simp only [isUpperAZ, Bool.and_eq_true, decide_eq_true_eq] at h
  simp only [isSpaceChar, Bool.or_eq_false_iff, beq_eq_false_iff_ne, ne_eq]
  refine ⟨⟨⟨⟨⟨?_, ?_⟩, ?_⟩, ?_⟩, ?_⟩, ?_⟩ <;>
    (intro h1; subst h1; exact absurd h.1 (by decide))

/-- Claim C9 counterexample: the line `[[SETUP  A: x]]` (two spaces
after `SETUP`) is classified by the code as a setup marker, yet it
does not match the claimed shape, which demands the literal
`[[SETUP ‥` with exactly one space before the letter. -/
theorem setup_shape_counterexample :
    (setupMatchL ("[[SETUP  A: x]]").data).isSome = true ∧
    specSetupShape "[[SETUP  A: x]]" = false := by
  decide

/-- Claim C9 amended: a line is classified by the scanner as a setup
marker iff it starts, at the very first character, with `[[SETUP`,
then one or more whitespace characters, one uppercase letter, `:`, and
after the colon at least one character stands before a later `]]`
(trailing text after that `]]` permitted); a line failing this shape
is never a setup marker. -/
theorem setup_marker_classification (line : String) :
    (setupMatchL line.data).isSome = true ↔ setupShapeDecl line.data := by
  constructor
  · intro h
    unfold setupMatchL at h
    split at h
    · simp at h
    · rename_i r hd
      split at h
      · simp at h
      · rename_i hws
        split at h
        · rename_i c d rest heq2
          split at h
          · rename_i hcd
            rw [Bool.and_eq_true] at hcd
            have hdcol : d = ':' := by
              have := hcd.2
              simpa using this
            subst hdcol
            have hmm : (matchSpacesThenCapture rest).isSome = true := by
              cases hm : matchSpacesThenCapture rest with
              | some p => rfl
              | none => rw [hm] at h; simp at h
            have hr : line.data = "[[SETUP".data ++ r :=
              (dropLiteral_eq_some _ _ _).mp hd
            have hrdecomp : r = r.takeWhile isSpaceChar ++ (c :: ':' :: rest) := by
              rw [← heq2]
              exact (List.takeWhile_append_dropWhile isSpaceChar r).symm
            refine ⟨r.takeWhile isSpaceChar, c, rest, ?_, ?_, ?_, hcd.1, ?_⟩
            · rw [hr]
              exact congrArg (fun t => "[[SETUP".data ++ t) hrdecomp
            · intro hnil
              rw [hnil] at hws
              exact hws rfl
            · exact fun x hx => mem_takeWhile_pred isSpaceChar r x hx
            · exact (mSTC_isSome rest).mp hmm
          · simp at h
        · simp at h
  · rintro ⟨ws, c, rest, heq, hwne, hsp, hup, pre, post, hrest, hpre⟩
    have hd : dropLiteral "[[SETUP".data line.data =
        some (ws ++ c :: ':' :: rest) :=
      (dropLiteral_eq_some _ _ _).mpr heq
    have hcsp : isSpaceChar c = false := isUpperAZ_not_space c hup
    have htd := takeWhile_spaces_append isSpaceChar ws c (':' :: rest) hsp hcsp
    have hm : (matchSpacesThenCapture rest).isSome = true :=
      (mSTC_isSome rest).mpr ⟨pre, post, hrest, hpre⟩
    unfold setupMatchL
    split
    · rename_i hnone
      rw [hd] at hnone
      simp at hnone
    · rename_i r hr
      rw [hd] at hr
      injection hr with hr
      subst hr
      rw [if_neg (by rw [htd.1]; simpa using hwne)]
      split
      · rename_i c2 d2 rest2 heq2
        rw [htd.2] at heq2
        injection heq2 with h1 h2
        injection h2 with h2 h3
        subst h1
        subst h2
        subst h3
        rw [if_pos (by simp [hup])]
        cases hmm : matchSpacesThenCapture rest with
        | some p => rfl
        | none => rw [hmm] at hm; simp at hm
      · rename_i hnomatch
        rw [htd.2] at hnomatch
        exact absurd rfl (hnomatch c ':' rest)


/-- Claim C10: for the document whose lines are `[[SETUP A: wide]]`
then `hello` — a setup marker with a content line preceding every
scene heading — the scanner stores a block whose `scene_number` and
`scene_heading` are both null, and the schedule formatter emits for
that block the label `Scene` with no number and the marker token
`#NoneA#`, whose scene-number part is the literal text `None`. -/
theorem none_scene_marker :
    extractScenes ["[[SETUP A: wide]]", "hello"] =
      [{ setup := { letter := 'A', description := "wide" },
         scene_number := none, scene_heading := none,
         content_lines := ["hello"] }] ∧
    formatOutput (extractScenes ["[[SETUP A: wide]]", "hello"]) =
      Except.ok
        "# SETUP A\n\n.[ ] From Scene (SETUP A: wide) #NoneA#\n\nhello\n" := by
  constructor
  · decide
  · decide

end FountainSched
